import Mathlib

set_option maxRecDepth 16000

/-!
Shallow embedding of `fatiando/io.py` (CRUST2.0 conversion and Surfer grid
loading) and proofs about it.

Numeric values are modelled as rationals (`ℚ`).  Python exceptions are
modelled with `Option`/`Except`.  Strings are modelled with Lean `String`;
Python `str.split()`, `str.strip()` and slicing are re-implemented below on
`List Char` so that every definition kernel-evaluates on concrete inputs.
-/

/-- Option-valued map over a list: `some` of the mapped list when `f`
succeeds on every element, `none` as soon as one element fails.  Models a
Python list comprehension whose element expression may raise. -/
def mapOpt (f : α → Option β) : List α → Option (List β)
  | [] => some []
  | a :: as =>
    match f a with
    | none => none
    | some b =>
      match mapOpt f as with
      | none => none
      | some bs => some (b :: bs)

/-- Accumulator for whitespace tokenisation: `cur` holds the (reversed)
characters of the token currently being read. -/
def wsTokensGo : List Char → List Char → List String
  | [], cur => if cur.isEmpty then [] else [String.mk cur.reverse]
  | c :: cs, cur =>
    if c.isWhitespace then
      (if cur.isEmpty then [] else [String.mk cur.reverse]) ++ wsTokensGo cs []
    else wsTokensGo cs (c :: cur)

/-- Python `str.split()` with no argument: split on runs of whitespace,
dropping empty tokens. -/
def splitWs (s : String) : List String :=
  wsTokensGo s.toList []

/-- Characters of a string with leading and trailing whitespace removed. -/
def trimChars (cs : List Char) : List Char :=
  ((cs.dropWhile Char.isWhitespace).reverse.dropWhile Char.isWhitespace).reverse

/-- Python `str.strip()` with no argument. -/
def pyStrip (s : String) : String :=
  String.mk (trimChars s.toList)

/-- Python slicing `s[:n]`. -/
def strTake (s : String) (n : Nat) : String :=
  String.mk (s.toList.take n)

/-- Value of a list of decimal digit characters. -/
def decToNat (cs : List Char) : Nat :=
  cs.foldl (fun n c => 10 * n + (c.toNat - '0'.toNat)) 0

/-- Modelled from the spec: Python `float()` restricted to plain decimal
literals (optional sign, integer part, optional fractional part), which is
the shape of every numeric token the two pipelines feed to it.  `none`
models `ValueError`. -/
def parseDec (s : String) : Option ℚ :=
  let cs := s.toList
  let sgn : ℚ := match cs with
    | '-' :: _ => -1
    | _ => 1
  let ds : List Char := match cs with
    | '-' :: rest => rest
    | '+' :: rest => rest
    | _ => cs
  let ip := ds.takeWhile (fun c => c ≠ '.')
  match ds.dropWhile (fun c => c ≠ '.') with
  | [] =>
    if !ip.isEmpty && ip.all Char.isDigit then some (sgn * (decToNat ip : ℚ))
    else none
  | _ :: fp =>
    if (!ip.isEmpty || !fp.isEmpty) && ip.all Char.isDigit && fp.all Char.isDigit then
      some (sgn * ((decToNat ip : ℚ) + (decToNat fp : ℚ) / ((10 ^ fp.length : ℕ) : ℚ)))
    else none

/-- Modelled from the spec: Python `int()` on a decimal token (optional
sign, digits).  `none` models `ValueError`. -/
def parseInt (s : String) : Option Int :=
  match s.toList with
  | '-' :: rest =>
    if !rest.isEmpty && rest.all Char.isDigit then some (-(decToNat rest : Int)) else none
  | '+' :: rest =>
    if !rest.isEmpty && rest.all Char.isDigit then some ((decToNat rest : Int)) else none
  | cs =>
    if !cs.isEmpty && cs.all Char.isDigit then some ((decToNat cs : Int)) else none

/-- `numpy.linspace a b n`: `n` evenly spaced rationals from `a` to `b`
inclusive. -/
def linspace (a b : ℚ) : Nat → List ℚ
  | 0 => []
  | 1 => [a]
  | n + 2 => (List.range (n + 2)).map (fun k : Nat => a + (b - a) * (k : ℚ) / ((n : ℚ) + 1))

/-! ## CRUST2.0 data model (from `fatiando/io.py`) -/

/-- Output record of the conversion: `fatiando.mesher.Tesseroid(w, e, s, n,
top, bottom, props)` with the `props` mapping `{density, vp, vs}` flattened
into three fields. -/
structure Tesseroid where
  w : ℚ
  e : ℚ
  s : ℚ
  n : ℚ
  top : ℚ
  bottom : ℚ
  density : ℚ
  vp : ℚ
  vs : ℚ
deriving DecidableEq

/-- One entry of the codec: the per-layer value lists built by
`_crust2_get_codec` for one type code. -/
structure LayerStack where
  vp : List ℚ
  vs : List ℚ
  density : List ℚ
  thickness : List ℚ
deriving DecidableEq

/-- The codec dict, observed only through lookup.  Python dict assignment
`codec[code] = ...` is modelled by prepending, and lookup returns the most
recently inserted binding. -/
def Codec : Type := List (String × LayerStack)

instance : DecidableEq Codec := by
  unfold Codec
  infer_instance

/-- Python `d[k]` on the codec dict: the most recently inserted value for
`k`, `none` when absent (`KeyError`). -/
def dictLookup : Codec → String → Option LayerStack
  | [], _ => none
  | (k, v) :: rest, code => if k = code then some v else dictLookup rest code

/-- Python `d[k] = v` (observationally: later insertions shadow earlier
ones under `dictLookup`). -/
def dinsert (d : Codec) (k : String) (v : LayerStack) : Codec :=
  (k, v) :: d

/-- Source line 131-133: `[float(v)*1000 for v in lines[i*5 + _].split()]`. -/
def parseVals (l : String) : Option (List ℚ) :=
  mapOpt (fun v => (parseDec v).map (fun q => q * 1000)) (splitWs l)

/-- Source line 135: `[float(v)*1000 for v in lines[i*5 + 4].split()[:7]]`
(the 8th thickness value, the mantle, is dropped before conversion). -/
def parseThick (l : String) : Option (List ℚ) :=
  mapOpt (fun v => (parseDec v).map (fun q => q * 1000)) ((splitWs l).take 7)

/-- Source lines 127-137: the loop `for i in xrange(len(lines)/5)` over
5-line groups `{code, vp, vs, density, thickness}`.  Integer division means
a trailing remainder of fewer than 5 lines is never touched.  `none` models
a `ValueError` raised by `float()`. -/
def buildCodec : List String → Codec → Option Codec
  | lc :: lv :: lsv :: ld :: lt :: rest, acc =>
    match parseVals lv, parseVals lsv, parseVals ld, parseThick lt with
    | some vp, some vs, some density, some thickness =>
      buildCodec rest (dinsert acc (strTake lc 2) ⟨vp, vs, density, thickness⟩)
    | _, _, _, _ => none
  | _, acc => some acc

/-- Source line 125: `[l.strip() for l in f.readlines()[5:] if l.strip()]`. -/
def crustPrep (raw : List String) : List String :=
  ((raw.drop 5).map pyStrip).filter (fun l => l ≠ "")

/-- Source lines 118-138 (`_crust2_get_codec`), with the archive member
given as its list of lines. -/
def crust2GetCodec (raw : List String) : Option Codec :=
  buildCodec (crustPrep raw) []

/-- The four numeric lines of the last 5-line group (among the complete
groups, in file order) whose code line starts with `code`. -/
def lastGroupFor (code : String) : List String → Option (String × String × String × String)
  | lc :: lv :: lsv :: ld :: lt :: rest =>
    match lastGroupFor code rest with
    | some g => some g
    | none => if strTake lc 2 = code then some (lv, lsv, ld, lt) else none
  | _ => none

/-- `GroupOf ls lc lv lsv ld lt` holds when the five lines are one of the
complete 5-line groups of `ls` (i.e. start at an offset divisible by 5). -/
inductive GroupOf : List String → String → String → String → String → String → Prop
  | here (a b c d e : String) (rest : List String) : GroupOf (a :: b :: c :: d :: e :: rest) a b c d e
  | there (x1 x2 x3 x4 x5 : String) {rest : List String} {a b c d e : String} :
      GroupOf rest a b c d e → GroupOf (x1 :: x2 :: x3 :: x4 :: x5 :: rest) a b c d e

/-! ## Model assembler (`crust2_to_tesseroids`, source lines 48-100) -/

/-- Python `KeyError` (`codec[t]` with `t` absent) and `IndexError` (list
index out of range); both are subclasses of `LookupError`. -/
inductive LookErr
  | key
  | index
deriving DecidableEq

/-- Source line 82: `size = 2`. -/
def cellSize : ℚ := 2

/-- Source line 83: `numpy.arange(-180, 180, size)`. -/
def crust2Lons : List ℚ :=
  (List.range 180).map (fun k => -180 + 2 * (k : ℚ))

/-- Source line 84: `numpy.arange(90, -90, -size)`. -/
def crust2Lats : List ℚ :=
  (List.range 90).map (fun k => 90 - 2 * (k : ℚ))

/-- Source lines 90-99: the `for layer in xrange(7)` loop for one cell.
`layer` is the current index, the fuel argument counts the remaining
iterations, `top` is the running top.  List indexing `[layer]` is modelled
with `get?`; a miss is an `IndexError`. -/
def cellGo (st : LayerStack) (w e s n : ℚ) : ℚ → Nat → Nat → Except LookErr (List Tesseroid)
  | _, _, 0 => .ok []
  | top, layer, fuel + 1 =>
    match st.thickness.get? layer with
    | none => .error .index
    | some th =>
      if th = 0 then cellGo st w e s n top (layer + 1) fuel
      else
        match st.density.get? layer, st.vp.get? layer, st.vs.get? layer with
        | some d, some vp, some vs =>
          match cellGo st w e s n (top - th) (layer + 1) fuel with
          | .ok rest => .ok (⟨w, e, s, n, top, top - th, d, vp, vs⟩ :: rest)
          | .error er => .error er
        | _, _, _ => .error .index

/-- Source lines 88-99: one grid cell.  `codec[t]` is looked up once (the
Python loop re-reads it each iteration with the same constant `t`); a miss
is a `KeyError`.  Footprint: `w, e, s, n = lons[j], lons[j] + size,
lats[i] - size, lats[i]`. -/
def cellTess (codec : Codec) (t : String) (lon lat top : ℚ) : Except LookErr (List Tesseroid) :=
  match dictLookup codec t with
  | none => .error .key
  | some st => cellGo st lon (lon + cellSize) (lat - cellSize) lat top 0 7

/-- Source lines 87-99: the inner `for j in xrange(len(lons))` loop for row
`i`.  `types[i][j]` and `topogrd[i][j]` are modelled by peeling the row
lists in step with `lons`; running out of row entries is an `IndexError`. -/
def rowTess (codec : Codec) (lat : ℚ) : List ℚ → List String → List ℚ → Except LookErr (List Tesseroid)
  | [], _, _ => .ok []
  | lon :: lns, t :: ts, z :: zs =>
    match cellTess codec t lon lat z with
    | .error er => .error er
    | .ok elems =>
      match rowTess codec lat lns ts zs with
      | .error er => .error er
      | .ok more => .ok (elems ++ more)
  | _ :: _, _, _ => .error .index

/-- Source lines 86-99: the outer `for i in xrange(len(lats))` loop,
peeling the matrices row by row in step with `lats`. -/
def gridTess (codec : Codec) (lons : List ℚ) : List ℚ → List (List String) → List (List ℚ) → Except LookErr (List Tesseroid)
  | [], _, _ => .ok []
  | lat :: lts, trow :: trows, prow :: prows =>
    match rowTess codec lat lons trow prow with
    | .error er => .error er
    | .ok elems =>
      match gridTess codec lons lts trows prows with
      | .error er => .error er
      | .ok more => .ok (elems ++ more)
  | _ :: _, _, _ => .error .index

/-- Source lines 48-100 (`crust2_to_tesseroids`): the conversion core,
taking the already-loaded topography matrix, type-code grid and codec
(archive extraction and `numpy.loadtxt` are external I/O). -/
def crust2ToTesseroids (topogrd : List (List ℚ)) (types : List (List String)) (codec : Codec) : Except LookErr (List Tesseroid) :=
  gridTess codec crust2Lons crust2Lats types topogrd

/-! ## Claim-side description of the assembler (claim C1's words) -/

/-- Empty layer stack, used as the (never reached) default of total
lookups on the claim side. -/
def stackDefault : LayerStack :=
  ⟨[], [], [], []⟩

/-- Follows the words of claim C1, per layer: iterate the 7 layers
shallowest to deepest; a layer with thickness `> 0` emits exactly one
element with z-bounds `[top, top - thickness[layer]]` and properties from
that layer, and the running top becomes the emitted bottom; a layer with
thickness 0 emits nothing and leaves the running top unchanged. -/
def c1Go (st : LayerStack) (w e s n : ℚ) : ℚ → Nat → Nat → List Tesseroid
  | _, _, 0 => []
  | top, layer, fuel + 1 =>
    let th := st.thickness.getD layer 0
    if 0 < th then
      ⟨w, e, s, n, top, top - th, st.density.getD layer 0, st.vp.getD layer 0, st.vs.getD layer 0⟩ ::
        c1Go st w e s n (top - th) (layer + 1) fuel
    else c1Go st w e s n top (layer + 1) fuel

/-- Follows the words of claim C1, per cell: start with `top` equal to the
cell's topography value and footprint `west = lons[j]`, `east = west + 2`,
`south = lats[i] - 2`, `north = lats[i]`. -/
def c1Cell (st : LayerStack) (lon lat top : ℚ) : List Tesseroid :=
  c1Go st lon (lon + 2) (lat - 2) lat top 0 7

/-- Follows the words of claim C1: cells of one latitude row, in column
order. -/
def c1Row (codec : Codec) (lat : ℚ) : List ℚ → List String → List ℚ → List Tesseroid
  | lon :: lns, t :: ts, z :: zs =>
    c1Cell ((dictLookup codec t).getD stackDefault) lon lat z ++ c1Row codec lat lns ts zs
  | _, _, _ => []

/-- Follows the words of claim C1: all grid cells in row-major order. -/
def c1Spec (codec : Codec) (lons : List ℚ) : List ℚ → List (List String) → List (List ℚ) → List Tesseroid
  | lat :: lts, trow :: trows, prow :: prows =>
    c1Row codec lat lons trow prow ++ c1Spec codec lons lts trows prows
  | _, _, _ => []

/-- A layer stack as the data model describes it: at least the 7 fixed
layers in each list and no negative thickness among the first 7. -/
def stackOK (st : LayerStack) : Bool :=
  decide (7 ≤ st.vp.length) && decide (7 ≤ st.vs.length) &&
    decide (7 ≤ st.density.length) && decide (7 ≤ st.thickness.length) &&
    (st.thickness.take 7).all (fun x => decide (0 ≤ x))

/-- The cell's type code is present in the codec and maps to a well-formed
stack. -/
def cellOK (codec : Codec) (t : String) : Bool :=
  match dictLookup codec t with
  | none => false
  | some st => stackOK st

/-- Every cell of one row is well-formed and the row matrices cover the
longitude axis. -/
def rowOK (codec : Codec) : List ℚ → List String → List ℚ → Bool
  | [], _, _ => true
  | _ :: lns, t :: ts, _ :: zs => cellOK codec t && rowOK codec lns ts zs
  | _ :: _, _, _ => false

/-- Every cell of the grid is well-formed and the matrices cover both
axes. -/
def gridOK (codec : Codec) (lons : List ℚ) : List ℚ → List (List String) → List (List ℚ) → Bool
  | [], _, _ => true
  | _ :: lts, trow :: trows, prow :: prows =>
    rowOK codec lons trow prow && gridOK codec lons lts trows prows
  | _ :: _, _, _ => false

/-! ## Legend well-formedness (for the amended claim C2) -/

/-- A Vp/Vs/density legend line as the documented layout has it: exactly 8
whitespace-separated tokens, all parseable. -/
def goodNumLine (l : String) : Bool :=
  decide ((splitWs l).length = 8) && (splitWs l).all (fun tk => (parseDec tk).isSome)

/-- A thickness legend line: exactly 8 tokens, the 7 retained ones
parseable and nonnegative. -/
def goodThickLine (l : String) : Bool :=
  decide ((splitWs l).length = 8) &&
    ((splitWs l).take 7).all (fun tk =>
      match parseDec tk with
      | some q => decide (0 ≤ q)
      | none => false)

/-- The stripped non-blank legend lines decompose into 5-line groups with
well-formed numeric lines (a trailing remainder of fewer than 5 lines is
unconstrained: the builder never reads it). -/
def goodLegend : List String → Bool
  | _ :: lv :: lsv :: ld :: lt :: rest =>
    goodNumLine lv && goodNumLine lsv && goodNumLine ld && goodThickLine lt && goodLegend rest
  | _ => true

/-! ## Surfer grid loader (`load_surfer`, source lines 140-213) -/

/-- Python `ValueError` from tuple unpacking, `int()`/`numpy.double()`
conversion or `numpy.genfromtxt`, all structural parse failures. -/
inductive GrdErr
  | parse
deriving DecidableEq

/-- Output of `load_surfer`: longitude axis, latitude axis and the value
matrix.  A `none` cell is the missing-value marker (`numpy.nan`). -/
structure SurferGrid where
  xc : List ℚ
  yr : List ℚ
  grd : List (List (Option ℚ))
deriving DecidableEq

/-- Source line 206: the Surfer NODATA sentinel bound `1.70141e+38`. -/
def nodataSentinel : ℚ :=
  1.70141e38

/-- Python `a, b = line.split()`: succeeds only on exactly two tokens. -/
def parse2 (l : String) : Option (String × String) :=
  match splitWs l with
  | [a, b] => some (a, b)
  | _ => none

/-- Source lines 180-200: the five header reads.  `readline` past the end
of the file yields `""`, hence the `getD _ ""`.  Returns
`(nx, ny, xmin, xmax, ymin, ymax)`; `zmin`/`zmax` are parsed and
discarded. -/
def readHeader (lines : List String) : Option (Int × Int × ℚ × ℚ × ℚ × ℚ) :=
  match parse2 (lines.getD 1 "") with
  | none => none
  | some (a, b) =>
    match parseInt a, parseInt b with
    | some nx, some ny =>
      match parse2 (lines.getD 2 "") with
      | none => none
      | some (xa, xb) =>
        match parseDec xa, parseDec xb with
        | some xmin, some xmax =>
          match parse2 (lines.getD 3 "") with
          | none => none
          | some (ya, yb) =>
            match parseDec ya, parseDec yb with
            | some ymin, some ymax =>
              match parse2 (lines.getD 4 "") with
              | none => none
              | some (za, zb) =>
                match parseDec za, parseDec zb with
                | some _, some _ => some (nx, ny, xmin, xmax, ymin, ymax)
                | _, _ => none
            | _, _ => none
        | _, _ => none
    | _, _ => none

/-- Source line 204: `numpy.genfromtxt(fname, skip_header=5)` on the body
lines, kept as its list of parsed rows.  Blank lines are skipped, an
unparseable token becomes `nan` (`none`), and rows of differing widths
are a `ValueError` (`none` result).  `numpy` squeezes the rectangular
data to a lower-dimensional array when it has a single row or a single
column; the rows are kept here and that dimensionality is recovered by
`genfromtxtIs2D` where the source observes it (the `numpy.where` unpack
on line 206). -/
def genfromtxtQ (body : List String) : Option (List (List (Option ℚ))) :=
  let rows := (body.map splitWs).filter (fun r => r ≠ [])
  let parsed := rows.map (fun r => r.map (fun tok => parseDec tok))
  match parsed with
  | [] => some []
  | r0 :: rest => if rest.all (fun r => r.length == r0.length) then some (r0 :: rest) else none

/-- Whether the array `numpy.genfromtxt` returns for these parsed rows is
2-D: `genfromtxt` squeezes a single row or a single column to a 1-D array
(and a single cell to 0-D, an empty body to an empty 1-D array), so the
result is 2-D exactly when there are at least 2 rows and at least 2
columns. -/
def genfromtxtIs2D (grd : List (List (Option ℚ))) : Bool :=
  match grd with
  | r0 :: _ :: _ => decide (2 ≤ r0.length)
  | _ => false

/-- Source lines 205-207: mask a cell, `grd >= 1.70141e+38` becomes
`numpy.nan` (on `nan` itself the comparison is false and the cell stays
`nan`). -/
def maskCell (c : Option ℚ) : Option ℚ :=
  match c with
  | none => none
  | some v => if nodataSentinel ≤ v then none else some v

/-- Source lines 140-213 (`load_surfer`), on the file's list of lines.
The second component records whether the header stream `ftext` has been
closed when the call returns: `ftext.close()` (line 202) runs only after
all five header reads succeed, so a header parse failure exits with the
handle still open.  Line 206, `i, j = numpy.where(grd >= 1.70141e+38)`,
unpacks one index array per dimension of `grd`, so it raises `ValueError`
(after the close) whenever the parsed body is not 2-D. -/
def loadSurfer (lines : List String) : Except GrdErr SurferGrid × Bool :=
  match readHeader lines with
  | none => (.error .parse, false)
  | some (nx, ny, xmin, xmax, ymin, ymax) =>
    match genfromtxtQ (lines.drop 5) with
    | none => (.error .parse, true)
    | some grd =>
      if genfromtxtIs2D grd = true then
        if nx < 0 ∨ ny < 0 then (.error .parse, true)
        else
          (.ok ⟨linspace xmin xmax nx.toNat, linspace ymin ymax ny.toNat,
            grd.map (fun r => r.map maskCell)⟩, true)
      else (.error .parse, true)

/-! ## Concrete example inputs -/

/-- A layer stack in the documented legend shape: 8 values per property
line, 7 retained thicknesses (two of them zero placeholders). -/
def exStack : LayerStack :=
  ⟨[3810, 1500, 2500, 4000, 6000, 6600, 7200, 8200],
   [1940, 0, 1200, 2100, 3400, 3800, 4200, 4700],
   [920, 1020, 2100, 2400, 2700, 2900, 3050, 3350],
   [0, 1000, 0, 2000, 3000, 4000, 5000]⟩

/-- Codec with the single type code `aa`. -/
def exCodec : Codec :=
  [("aa", exStack)]

/-- A second single-entry codec (distinct fixture for claim C4). -/
def exCodecC4 : Codec :=
  [("bb", ⟨[6500, 1, 2, 3, 4, 5, 6, 7], [3750, 1, 1, 1, 1, 1, 1, 1],
    [2800, 2, 2, 2, 2, 2, 2, 2], [500, 0, 1500, 0, 0, 2500, 3000]⟩)]

/-- Legend member whose numeric lines have the documented 8 tokens
(counterexample input for claim C2). -/
def c2Raw : List String :=
  ["header 1", "header 2", "header 3", "header 4", "header 5",
   "A0 shield",
   "6.5 1 2 3 4 5 6 8.2",
   "3.75 1 1 1 1 1 1 4.7",
   "0.92 2 2 2 2 2 2 3.35",
   "2 0 1 2 3 4 5 0"]

/-- Well-formed legend member for the amended claim C2's witness. -/
def c2WitRaw : List String :=
  ["header 1", "header 2", "header 3", "header 4", "header 5",
   "B1 basin",
   "3.81 1.5 2.5 4 6 6.6 7.2 8.2",
   "1.94 0 1.2 2.1 3.4 3.8 4.2 4.7",
   "0.92 1.02 2.1 2.4 2.7 2.9 3.05 3.35",
   "0 1 0 2 3 4 5 0"]

/-- Legend member for claim C3's witness (one group, scaling visible:
`6.5` must decode to `6500`, `10` to `10000`). -/
def c3Raw : List String :=
  ["header 1", "header 2", "header 3", "header 4", "header 5",
   "D3 margin",
   "6.5 1 2 3 4 5 6 8.2",
   "3.75 1 1 1 1 1 1 4.7",
   "2.9 2 2 2 2 2 2 3.35",
   "10 0 1 2 3 4 5 99"]

/-- Legend member whose non-blank count after the header is 6 (not a
multiple of 5) and whose thickness line has only 3 tokens (counterexample
input for claim C5). -/
def c5Raw : List String :=
  ["header 1", "header 2", "header 3", "header 4", "header 5",
   "E7 oddball",
   "1 2 3 4 5 6 7 8",
   "1 2 3 4 5 6 7 8",
   "1 2 3 4 5 6 7 8",
   "1 2 3",
   "leftover line"]

/-- Legend member with two groups for the same code `F0` (witness input
for claim C10): the second group's values must win. -/
def c10Raw : List String :=
  ["header 1", "header 2", "header 3", "header 4", "header 5",
   "F0 first",
   "1 1 1 1 1 1 1 1",
   "2 2 2 2 2 2 2 2",
   "3 3 3 3 3 3 3 3",
   "4 4 4 4 4 4 4 4",
   "F0 second",
   "5 5 5 5 5 5 5 5",
   "6 6 6 6 6 6 6 6",
   "7 7 7 7 7 7 7 7",
   "8 8 8 8 8 8 8 8"]

/-- Surfer grid file for claim C7's witness: `nx = 3`, `ny = 2`, one body
cell holding the NODATA sentinel `1.70141e38`. -/
def c7Lines : List String :=
  ["DSAA", "3 2", "0 2", "0 1", "0 5",
   "1 2 170141000000000000000000000000000000000",
   "4 5 6"]

/-- Well-formed Surfer grid file whose body has a single row
(counterexample input for claim C7): `numpy.genfromtxt` squeezes it to
1-D and the `numpy.where` unpack on source line 206 raises. -/
def c7CexLines : List String :=
  ["DSAA", "3 1", "0 2", "0 1", "0 5", "1 2 3"]

/-- Surfer grid file whose header declares `ny = 3` but whose (genuinely
2-D) body has only 2 rows (counterexample input for claim C8). -/
def c8Lines : List String :=
  ["DSAA", "3 3", "0 2", "0 1", "0 5", "1 2 3", "4 5 6"]

/-! ## Lemmas about `mapOpt` -/

theorem mapOpt_length {f : α → Option β} :
    ∀ {l : List α} {bs : List β}, mapOpt f l = some bs → bs.length = l.length := by
  intro l
  induction l with
  | nil => intro bs h; simp [mapOpt] at h; simp [← h]
  | cons a as ih =>
    intro bs h
    simp only [mapOpt] at h
    cases hfa : f a with
    | none => rw [hfa] at h; exact absurd h (by simp)
    | some b =>
      rw [hfa] at h
      cases hrec : mapOpt f as with
      | none => rw [hrec] at h; exact absurd h (by simp)
      | some bs' =>
        rw [hrec] at h
        cases h
        simpa using ih hrec

theorem mapOpt_total {f : α → Option β} :
    ∀ {l : List α}, (∀ a ∈ l, (f a).isSome) → ∃ bs, mapOpt f l = some bs := by
  intro l
  induction l with
  | nil => intro _; exact ⟨[], rfl⟩
  | cons a as ih =>
    intro h
    obtain ⟨b, hb⟩ := Option.isSome_iff_exists.mp (h a (by simp))
    obtain ⟨bs, hbs⟩ := ih (fun x hx => h x (by simp [hx]))
    exact ⟨b :: bs, by simp [mapOpt, hb, hbs]⟩

theorem mapOpt_mem {f : α → Option β} :
    ∀ {l : List α} {bs : List β}, mapOpt f l = some bs → ∀ b ∈ bs, ∃ a ∈ l, f a = some b := by
  intro l
  induction l with
  | nil => intro bs h; simp [mapOpt] at h; simp [h]
  | cons a as ih =>
    intro bs h b hb
    simp only [mapOpt] at h
    cases hfa : f a with
    | none => rw [hfa] at h; exact absurd h (by simp)
    | some b0 =>
      rw [hfa] at h
      cases hrec : mapOpt f as with
      | none => rw [hrec] at h; exact absurd h (by simp)
      | some bs' =>
        rw [hrec] at h
        cases h
        rcases List.mem_cons.mp hb with h1 | h2
        · exact ⟨a, by simp, by rw [hfa, h1]⟩
        · obtain ⟨x, hx, hfx⟩ := ih hrec b h2
          exact ⟨x, by simp [hx], hfx⟩

theorem mapOpt_factor {f : α → Option γ} {g : γ → β} :
    ∀ {l : List α} {bs : List β}, mapOpt (fun a => (f a).map g) l = some bs →
      ∃ cs, mapOpt f l = some cs ∧ bs = cs.map g := by
  intro l
  induction l with
  | nil =>
    intro bs h; simp [mapOpt] at h
    exact ⟨[], rfl, by simp [← h]⟩
  | cons a as ih =>
    intro bs h
    simp only [mapOpt] at h
    cases hfa : f a with
    | none => rw [hfa] at h; exact absurd h (by simp)
    | some c =>
      rw [hfa] at h
      simp only [Option.map_some'] at h
      cases hrec : mapOpt (fun a => (f a).map g) as with
      | none => rw [hrec] at h; exact absurd h (by simp)
      | some bs' =>
        rw [hrec] at h
        cases h
        obtain ⟨cs, hcs, hbs'⟩ := ih hrec
        exact ⟨c :: cs, by simp [mapOpt, hfa, hcs], by simp [hbs']⟩

/-! ## Lemmas about the codec dict and the legend builder -/

theorem dictLookup_dinsert_self (d : Codec) (k : String) (v : LayerStack) :
    dictLookup (dinsert d k v) k = some v := by
  simp [dinsert, dictLookup]

theorem dictLookup_dinsert_ne (d : Codec) (k k' : String) (v : LayerStack) (h : k ≠ k') :
    dictLookup (dinsert d k v) k' = dictLookup d k' := by
  simp [dinsert, dictLookup, h]

/-- Where a codec entry comes from: either untouched from the seed dict
(no complete group of `ls` carries its code), or decoded from the last
complete group of `ls` carrying its code. -/
theorem buildCodec_lookup_last (code : String) :
    ∀ (ls : List String) (acc c : Codec), buildCodec ls acc = some c →
      ∀ st, dictLookup c code = some st →
      (lastGroupFor code ls = none ∧ dictLookup acc code = some st) ∨
      (∃ lv lsv ld lt, lastGroupFor code ls = some (lv, lsv, ld, lt) ∧
        parseVals lv = some st.vp ∧ parseVals lsv = some st.vs ∧
        parseVals ld = some st.density ∧ parseThick lt = some st.thickness)
  | lc :: lv :: lsv :: ld :: lt :: rest, acc, c => by
    intro hb st hst
    simp only [buildCodec] at hb
    split at hb
    next vp vs density thickness h1 h2 h3 h4 =>
      rcases buildCodec_lookup_last code rest _ _ hb st hst with
        ⟨hnone, hacc⟩ | ⟨lv', lsv', ld', lt', hlast, hd1, hd2, hd3, hd4⟩
      · by_cases hc : strTake lc 2 = code
        · rw [hc, dictLookup_dinsert_self] at hacc
          cases hacc
          exact Or.inr ⟨lv, lsv, ld, lt, by simp [lastGroupFor, hnone, hc], h1, h2, h3, h4⟩
        · rw [dictLookup_dinsert_ne _ _ _ _ hc] at hacc
          exact Or.inl ⟨by simp [lastGroupFor, hnone, hc], hacc⟩
      · exact Or.inr ⟨lv', lsv', ld', lt', by simp [lastGroupFor, hlast], hd1, hd2, hd3, hd4⟩
    next =>
      exact absurd hb (by simp)
  | [], acc, c => by
    intro hb st hst
    simp only [buildCodec, Option.some.injEq] at hb
    subst hb
    exact Or.inl ⟨rfl, hst⟩
  | [a], acc, c => by
    intro hb st hst
    simp only [buildCodec, Option.some.injEq] at hb
    subst hb
    exact Or.inl ⟨rfl, hst⟩
  | [a, b], acc, c => by
    intro hb st hst
    simp only [buildCodec, Option.some.injEq] at hb
    subst hb
    exact Or.inl ⟨rfl, hst⟩
  | [a, b, d], acc, c => by
    intro hb st hst
    simp only [buildCodec, Option.some.injEq] at hb
    subst hb
    exact Or.inl ⟨rfl, hst⟩
  | [a, b, d, e], acc, c => by
    intro hb st hst
    simp only [buildCodec, Option.some.injEq] at hb
    subst hb
    exact Or.inl ⟨rfl, hst⟩

/-- A code carried by some complete group of `ls` (or already present in
the seed dict) is present in the built codec. -/
theorem buildCodec_lookup_isSome (code : String) :
    ∀ (ls : List String) (acc c : Codec), buildCodec ls acc = some c →
      ((lastGroupFor code ls).isSome ∨ (dictLookup acc code).isSome) →
      (dictLookup c code).isSome
  | lc :: lv :: lsv :: ld :: lt :: rest, acc, c => by
    intro hb hsrc
    simp only [buildCodec] at hb
    split at hb
    next vp vs density thickness h1 h2 h3 h4 =>
      refine buildCodec_lookup_isSome code rest _ _ hb ?_
      by_cases hc : strTake lc 2 = code
      · exact Or.inr (by rw [hc, dictLookup_dinsert_self]; rfl)
      · rcases hsrc with hl | ha
        · cases hrec : lastGroupFor code rest with
          | some g => exact Or.inl rfl
          | none =>
            exfalso
            rw [show lastGroupFor code (lc :: lv :: lsv :: ld :: lt :: rest) =
              none by simp [lastGroupFor, hrec, hc]] at hl
            simp at hl
        · exact Or.inr (by rwa [dictLookup_dinsert_ne _ _ _ _ hc])
    next =>
      exact absurd hb (by simp)
  | [], acc, c => by
    intro hb hsrc
    simp only [buildCodec, Option.some.injEq] at hb
    subst hb
    rcases hsrc with hl | ha
    · simp [lastGroupFor] at hl
    · exact ha
  | [a], acc, c => by
    intro hb hsrc
    simp only [buildCodec, Option.some.injEq] at hb
    subst hb
    rcases hsrc with hl | ha
    · simp [lastGroupFor] at hl
    · exact ha
  | [a, b], acc, c => by
    intro hb hsrc
    simp only [buildCodec, Option.some.injEq] at hb
    subst hb
    rcases hsrc with hl | ha
    · simp [lastGroupFor] at hl
    · exact ha
  | [a, b, d], acc, c => by
    intro hb hsrc
    simp only [buildCodec, Option.some.injEq] at hb
    subst hb
    rcases hsrc with hl | ha
    · simp [lastGroupFor] at hl
    · exact ha
  | [a, b, d, e], acc, c => by
    intro hb hsrc
    simp only [buildCodec, Option.some.injEq] at hb
    subst hb
    rcases hsrc with hl | ha
    · simp [lastGroupFor] at hl
    · exact ha

/-- The lines found by `lastGroupFor` really form a complete group. -/
theorem lastGroupFor_groupOf (code : String) :
    ∀ (ls : List String) (lv lsv ld lt : String),
      lastGroupFor code ls = some (lv, lsv, ld, lt) →
      ∃ lc, GroupOf ls lc lv lsv ld lt ∧ strTake lc 2 = code
  | lc0 :: l1 :: l2 :: l3 :: l4 :: rest, lv, lsv, ld, lt => by
    intro h
    simp only [lastGroupFor] at h
    cases hrec : lastGroupFor code rest with
    | some g =>
      rw [hrec] at h
      cases h
      obtain ⟨lc, hg, hc⟩ := lastGroupFor_groupOf code rest lv lsv ld lt hrec
      exact ⟨lc, GroupOf.there _ _ _ _ _ hg, hc⟩
    | none =>
      rw [hrec] at h
      by_cases hc : strTake lc0 2 = code
      · simp only [if_pos hc, Option.some.injEq, Prod.mk.injEq] at h
        obtain ⟨e1, e2, e3, e4⟩ := h
        subst e1; subst e2; subst e3; subst e4
        exact ⟨lc0, GroupOf.here _ _ _ _ _ _, hc⟩
      · rw [if_neg hc] at h
        exact absurd h (by simp)
  | [], lv, lsv, ld, lt => by intro h; simp [lastGroupFor] at h
  | [a], lv, lsv, ld, lt => by intro h; simp [lastGroupFor] at h
  | [a, b], lv, lsv, ld, lt => by intro h; simp [lastGroupFor] at h
  | [a, b, d], lv, lsv, ld, lt => by intro h; simp [lastGroupFor] at h
  | [a, b, d, e], lv, lsv, ld, lt => by intro h; simp [lastGroupFor] at h

/-- The builder reads only the first `5 * (n / 5)` lines: the trailing
remainder of an incomplete group is silently ignored (`for i in
xrange(len(lines)/5)` with integer division). -/
theorem buildCodec_take :
    ∀ (ls : List String) (acc : Codec),
      buildCodec ls acc = buildCodec (ls.take (5 * (ls.length / 5))) acc
  | lc :: lv :: lsv :: ld :: lt :: rest, acc => by
    have hlen : (lc :: lv :: lsv :: ld :: lt :: rest).length = rest.length + 5 := by
      simp
    have hdiv : (rest.length + 5) / 5 = rest.length / 5 + 1 :=
      Nat.add_div_right _ (by norm_num)
    have htake : (lc :: lv :: lsv :: ld :: lt :: rest).take (5 * (rest.length / 5 + 1)) =
        lc :: lv :: lsv :: ld :: lt :: rest.take (5 * (rest.length / 5)) := by
      have h5 : 5 * (rest.length / 5 + 1) = 5 * (rest.length / 5) + 5 := by ring
      rw [h5]
      have : 5 * (rest.length / 5) + 5 = (((((5 * (rest.length / 5)).succ).succ).succ).succ).succ := by
        omega
      rw [this]
      simp [List.take_succ_cons]
    rw [hlen, hdiv, htake]
    simp only [buildCodec]
    cases parseVals lv <;> cases parseVals lsv <;> cases parseVals ld <;> cases parseThick lt <;>
      simp only [] <;> first
        | rfl
        | exact buildCodec_take rest _
  | [], acc => by simp [buildCodec]
  | [a], acc => by simp [buildCodec]
  | [a, b], acc => by simp [buildCodec]
  | [a, b, d], acc => by simp [buildCodec]
  | [a, b, d, e], acc => by simp [buildCodec]

/-- A well-formed Vp/Vs/density line parses to 8 scaled values. -/
theorem goodNumLine_parseVals {l : String} (h : goodNumLine l = true) :
    ∃ vs, parseVals l = some vs ∧ vs.length = 8 := by
  simp only [goodNumLine, Bool.and_eq_true, decide_eq_true_eq, List.all_eq_true] at h
  obtain ⟨hlen, hall⟩ := h
  obtain ⟨vs, hvs⟩ := mapOpt_total (l := splitWs l)
    (f := fun v => (parseDec v).map (fun q => q * 1000))
    (fun a ha => by
      obtain ⟨q, hq⟩ := Option.isSome_iff_exists.mp (hall a ha)
      simp [hq])
  exact ⟨vs, hvs, by rw [mapOpt_length hvs, hlen]⟩

/-- A well-formed thickness line parses to 7 scaled nonnegative values. -/
theorem goodThickLine_parseThick {l : String} (h : goodThickLine l = true) :
    ∃ ts, parseThick l = some ts ∧ ts.length = 7 ∧ ∀ x ∈ ts, 0 ≤ x := by
  simp only [goodThickLine, Bool.and_eq_true, decide_eq_true_eq, List.all_eq_true] at h
  obtain ⟨hlen, hall⟩ := h
  obtain ⟨ts, hts⟩ := mapOpt_total (l := (splitWs l).take 7)
    (f := fun v => (parseDec v).map (fun q => q * 1000))
    (fun a ha => by
      have := hall a ha
      cases hpd : parseDec a with
      | none => rw [hpd] at this; exact absurd this (by simp)
      | some q => simp [hpd])
  refine ⟨ts, hts, ?_, ?_⟩
  · rw [mapOpt_length hts, List.length_take, hlen]
    decide
  · intro x hx
    obtain ⟨a, ha, hfa⟩ := mapOpt_mem hts x hx
    have := hall a ha
    cases hpd : parseDec a with
    | none => rw [hpd] at this; exact absurd this (by simp)
    | some q =>
      rw [hpd] at this hfa
      simp only [decide_eq_true_eq] at this
      simp only [Option.map_some', Option.some.injEq] at hfa
      rw [← hfa]
      positivity

/-- A well-formed legend never makes the builder fail. -/
theorem buildCodec_total :
    ∀ (ls : List String), goodLegend ls = true → ∀ acc, ∃ c, buildCodec ls acc = some c
  | lc :: lv :: lsv :: ld :: lt :: rest => by
    intro h acc
    simp only [goodLegend, Bool.and_eq_true] at h
    obtain ⟨⟨⟨⟨h1, h2⟩, h3⟩, h4⟩, h5⟩ := h
    obtain ⟨vp, hvp, -⟩ := goodNumLine_parseVals h1
    obtain ⟨vs, hvs, -⟩ := goodNumLine_parseVals h2
    obtain ⟨density, hd, -⟩ := goodNumLine_parseVals h3
    obtain ⟨thickness, hth, -, -⟩ := goodThickLine_parseThick h4
    obtain ⟨c, hc⟩ := buildCodec_total rest h5 (dinsert acc (strTake lc 2) ⟨vp, vs, density, thickness⟩)
    exact ⟨c, by simp only [buildCodec, hvp, hvs, hd, hth]; exact hc⟩
  | [] => by intro _ acc; exact ⟨acc, rfl⟩
  | [a] => by intro _ acc; exact ⟨acc, rfl⟩
  | [a, b] => by intro _ acc; exact ⟨acc, rfl⟩
  | [a, b, d] => by intro _ acc; exact ⟨acc, rfl⟩
  | [a, b, d, e] => by intro _ acc; exact ⟨acc, rfl⟩

/-- In a well-formed legend, the last group for any code has well-formed
numeric lines. -/
theorem goodLegend_lastGroup (code : String) :
    ∀ (ls : List String), goodLegend ls = true →
      ∀ lv lsv ld lt, lastGroupFor code ls = some (lv, lsv, ld, lt) →
      goodNumLine lv = true ∧ goodNumLine lsv = true ∧ goodNumLine ld = true ∧
        goodThickLine lt = true
  | lc0 :: l1 :: l2 :: l3 :: l4 :: rest => by
    intro h lv lsv ld lt hg
    simp only [goodLegend, Bool.and_eq_true] at h
    obtain ⟨⟨⟨⟨h1, h2⟩, h3⟩, h4⟩, h5⟩ := h
    simp only [lastGroupFor] at hg
    cases hrec : lastGroupFor code rest with
    | some g =>
      rw [hrec] at hg
      cases hg
      exact goodLegend_lastGroup code rest h5 lv lsv ld lt hrec
    | none =>
      rw [hrec] at hg
      by_cases hc : strTake lc0 2 = code
      · simp only [if_pos hc, Option.some.injEq, Prod.mk.injEq] at hg
        obtain ⟨e1, e2, e3, e4⟩ := hg
        subst e1; subst e2; subst e3; subst e4
        exact ⟨h1, h2, h3, h4⟩
      · rw [if_neg hc] at hg
        exact absurd hg (by simp)
  | [] => by intro _ lv lsv ld lt hg; simp [lastGroupFor] at hg
  | [a] => by intro _ lv lsv ld lt hg; simp [lastGroupFor] at hg
  | [a, b] => by intro _ lv lsv ld lt hg; simp [lastGroupFor] at hg
  | [a, b, d] => by intro _ lv lsv ld lt hg; simp [lastGroupFor] at hg
  | [a, b, d, e] => by intro _ lv lsv ld lt hg; simp [lastGroupFor] at hg

/-! ## Lemmas about `linspace` and the Surfer loader -/

theorem linspace_length (a b : ℚ) : ∀ n, (linspace a b n).length = n
  | 0 => rfl
  | 1 => rfl
  | n + 2 => by
    show ((List.range (n + 2)).map (fun k : Nat => a + (b - a) * (k : ℚ) / ((n : ℚ) + 1))).length = n + 2
    rw [List.length_map, List.length_range]

theorem linspace_get (a b : ℚ) :
    ∀ (n k : Nat), 2 ≤ n → k < n →
      (linspace a b n).get? k = some (a + (b - a) * k / ((n : ℚ) - 1))
  | n + 2, k, _, hk => by
    show ((List.range (n + 2)).map (fun k : Nat => a + (b - a) * (k : ℚ) / ((n : ℚ) + 1))).get? k = _
    rw [List.get?_eq_getElem?, List.getElem?_map, List.getElem?_range hk]
    simp only [Option.map_some', Option.some.injEq]
    push_cast
    ring

/-! ## Lemmas about the model assembler -/

theorem stackOK_lens {st : LayerStack} (h : stackOK st = true) :
    7 ≤ st.vp.length ∧ 7 ≤ st.vs.length ∧ 7 ≤ st.density.length ∧ 7 ≤ st.thickness.length := by
  simp only [stackOK, Bool.and_eq_true, decide_eq_true_eq] at h
  exact ⟨h.1.1.1.1, h.1.1.1.2, h.1.1.2, h.1.2⟩

theorem stackOK_nonneg {st : LayerStack} (h : stackOK st = true) {layer : Nat} {x : ℚ}
    (hl : layer < 7) (hx : st.thickness.get? layer = some x) : 0 ≤ x := by
  simp only [stackOK, Bool.and_eq_true, decide_eq_true_eq, List.all_eq_true] at h
  have := h.2 x (List.get?_mem (by rw [List.get?_take hl]; exact hx))
  simpa using this

/-- The layer loop agrees with the claim-side description on well-formed
stacks. -/
theorem cellGo_spec (st : LayerStack) (hst : stackOK st = true) (w e s n : ℚ) :
    ∀ (fuel layer : Nat) (top : ℚ), layer + fuel ≤ 7 →
      cellGo st w e s n top layer fuel = .ok (c1Go st w e s n top layer fuel)
  | 0, layer, top, _ => rfl
  | fuel + 1, layer, top, h => by
    have hlay : layer < 7 := by omega
    obtain ⟨h1, h2, h3, h4⟩ := stackOK_lens hst
    obtain ⟨th, hth⟩ : ∃ x, st.thickness.get? layer = some x :=
      ⟨_, List.get?_eq_get (by omega)⟩
    obtain ⟨d, hd⟩ : ∃ x, st.density.get? layer = some x :=
      ⟨_, List.get?_eq_get (by omega)⟩
    obtain ⟨vp, hvp⟩ : ∃ x, st.vp.get? layer = some x :=
      ⟨_, List.get?_eq_get (by omega)⟩
    obtain ⟨vs, hvs⟩ : ∃ x, st.vs.get? layer = some x :=
      ⟨_, List.get?_eq_get (by omega)⟩
    have hnn : (0 : ℚ) ≤ th := stackOK_nonneg hst hlay hth
    have hgth : st.thickness.getD layer 0 = th := by
      show (st.thickness.get? layer).getD 0 = th
      rw [hth]; rfl
    have hgd : st.density.getD layer 0 = d := by
      show (st.density.get? layer).getD 0 = d
      rw [hd]; rfl
    have hgvp : st.vp.getD layer 0 = vp := by
      show (st.vp.get? layer).getD 0 = vp
      rw [hvp]; rfl
    have hgvs : st.vs.getD layer 0 = vs := by
      show (st.vs.get? layer).getD 0 = vs
      rw [hvs]; rfl
    simp only [cellGo, c1Go, hth, hd, hvp, hvs, hgth, hgd, hgvp, hgvs]
    by_cases hz : th = 0
    · rw [if_pos hz, if_neg (by rw [hz]; exact lt_irrefl 0)]
      exact cellGo_spec st hst w e s n fuel (layer + 1) top (by omega)
    · rw [if_neg hz, if_pos (lt_of_le_of_ne hnn (Ne.symm hz)),
        cellGo_spec st hst w e s n fuel (layer + 1) (top - th) (by omega)]

/-- One cell of the assembler agrees with the claim-side description. -/
theorem cellTess_spec (codec : Codec) (t : String) (st : LayerStack) (lon lat z : ℚ)
    (hl : dictLookup codec t = some st) (hst : stackOK st = true) :
    cellTess codec t lon lat z = .ok (c1Cell st lon lat z) := by
  unfold cellTess c1Cell
  rw [hl]
  have := cellGo_spec st hst lon (lon + cellSize) (lat - cellSize) lat 7 0 z (by omega)
  simpa [cellSize] using this

/-- One row of the assembler agrees with the claim-side description. -/
theorem rowTess_spec (codec : Codec) (lat : ℚ) :
    ∀ (lns : List ℚ) (ts : List String) (zs : List ℚ), rowOK codec lns ts zs = true →
      rowTess codec lat lns ts zs = .ok (c1Row codec lat lns ts zs)
  | [], ts, zs, _ => by
    cases ts <;> cases zs <;> rfl
  | lon :: lns, t :: ts, z :: zs, h => by
    simp only [rowOK, Bool.and_eq_true] at h
    obtain ⟨hc, hrest⟩ := h
    unfold cellOK at hc
    cases hl : dictLookup codec t with
    | none => rw [hl] at hc; exact absurd hc (by simp)
    | some st =>
      rw [hl] at hc
      simp only [rowTess, c1Row, cellTess_spec codec t st lon lat z hl hc,
        rowTess_spec codec lat lns ts zs hrest, hl, Option.getD_some]
  | lon :: lns, [], zs, h => by
    simp [rowOK] at h
  | lon :: lns, t :: ts, [], h => by
    simp [rowOK] at h

/-- The full grid loop agrees with the claim-side description. -/
theorem gridTess_spec (codec : Codec) (lons : List ℚ) :
    ∀ (lts : List ℚ) (trows : List (List String)) (prows : List (List ℚ)),
      gridOK codec lons lts trows prows = true →
      gridTess codec lons lts trows prows = .ok (c1Spec codec lons lts trows prows)
  | [], trows, prows, _ => by
    cases trows <;> cases prows <;> rfl
  | lat :: lts, trow :: trows, prow :: prows, h => by
    simp only [gridOK, Bool.and_eq_true] at h
    obtain ⟨hr, hrest⟩ := h
    simp only [gridTess, c1Spec, rowTess_spec codec lat lons trow prow hr,
      gridTess_spec codec lons lts trows prows hrest]
  | lat :: lts, [], prows, h => by
    simp [gridOK] at h
  | lat :: lts, trow :: trows, [], h => by
    simp [gridOK] at h

/-- Vertical spans of the elements emitted by the layer loop: their sum is
the sum of the nonzero thicknesses in the traversed window, and the first
element starts at the running top. -/
theorem cellGo_span (st : LayerStack) (w e s n : ℚ) :
    ∀ (fuel layer : Nat) (top : ℚ) (elems : List Tesseroid),
      cellGo st w e s n top layer fuel = .ok elems →
      (elems.map (fun el => el.top - el.bottom)).sum =
        (((st.thickness.drop layer).take fuel).filter (fun x => x ≠ 0)).sum ∧
      ∀ el0, elems.head? = some el0 → el0.top = top
  | 0, layer, top, elems => by
    intro h
    simp only [cellGo, Except.ok.injEq] at h
    subst h
    simp
  | fuel + 1, layer, top, elems => by
    intro h
    simp only [cellGo] at h
    cases hth : st.thickness.get? layer with
    | none => rw [hth] at h; exact absurd h (by simp)
    | some th =>
      simp only [hth] at h
      obtain ⟨hlt, hget⟩ := List.get?_eq_some.mp hth
      have hdrop : st.thickness.drop layer = th :: st.thickness.drop (layer + 1) := by
        rw [List.drop_eq_getElem_cons hlt]
        exact congrArg (· :: _) hget
      by_cases hz : th = 0
      · rw [if_pos hz] at h
        obtain ⟨hsum, hhead⟩ := cellGo_span st w e s n fuel (layer + 1) top elems h
        refine ⟨?_, hhead⟩
        rw [hsum, hdrop, List.take_succ_cons, List.filter_cons_of_neg (by simp [hz])]
      · rw [if_neg hz] at h
        cases hd : st.density.get? layer with
        | none => simp only [hd] at h; exact absurd h (by simp)
        | some d =>
        cases hvp : st.vp.get? layer with
        | none => simp only [hd, hvp] at h; exact absurd h (by simp)
        | some vp =>
        cases hvs : st.vs.get? layer with
        | none => simp only [hd, hvp, hvs] at h; exact absurd h (by simp)
        | some vs =>
        simp only [hd, hvp, hvs] at h
        cases hrec : cellGo st w e s n (top - th) (layer + 1) fuel with
        | error er => simp only [hrec] at h; exact absurd h (by simp)
        | ok rest =>
          simp only [hrec] at h
          simp only [Except.ok.injEq] at h
          subst h
          obtain ⟨hsum, -⟩ := cellGo_span st w e s n fuel (layer + 1) (top - th) rest hrec
          constructor
          · rw [hdrop, List.take_succ_cons, List.filter_cons_of_pos (by simp [hz])]
            simp only [List.map_cons, List.sum_cons, hsum]
            ring_nf
          · intro el0 hel0
            simp only [List.head?_cons, Option.some.injEq] at hel0
            rw [← hel0]

/-- Every element the layer loop emits has a vertical span drawn from the
stack's (7-entry) thickness list. -/
theorem cellGo_memThick (st : LayerStack) (w e s n : ℚ) :
    ∀ (fuel layer : Nat) (top : ℚ) (elems : List Tesseroid),
      cellGo st w e s n top layer fuel = .ok elems →
      ∀ el ∈ elems, (el.top - el.bottom) ∈ st.thickness
  | 0, layer, top, elems => by
    intro h el hel
    simp only [cellGo, Except.ok.injEq] at h
    subst h
    simp at hel
  | fuel + 1, layer, top, elems => by
    intro h el hel
    simp only [cellGo] at h
    cases hth : st.thickness.get? layer with
    | none => rw [hth] at h; exact absurd h (by simp)
    | some th =>
      simp only [hth] at h
      by_cases hz : th = 0
      · rw [if_pos hz] at h
        exact cellGo_memThick st w e s n fuel (layer + 1) top elems h el hel
      · rw [if_neg hz] at h
        cases hd : st.density.get? layer with
        | none => simp only [hd] at h; exact absurd h (by simp)
        | some d =>
        cases hvp : st.vp.get? layer with
        | none => simp only [hd, hvp] at h; exact absurd h (by simp)
        | some vp =>
        cases hvs : st.vs.get? layer with
        | none => simp only [hd, hvp, hvs] at h; exact absurd h (by simp)
        | some vs =>
        simp only [hd, hvp, hvs] at h
        cases hrec : cellGo st w e s n (top - th) (layer + 1) fuel with
        | error er => simp only [hrec] at h; exact absurd h (by simp)
        | ok rest =>
          simp only [hrec] at h
          simp only [Except.ok.injEq] at h
          subst h
          rcases List.mem_cons.mp hel with h1 | h2
          · subst h1
            simp only
            rw [show top - (top - th) = th by ring]
            exact List.get?_mem hth
          · exact cellGo_memThick st w e s n fuel (layer + 1) (top - th) rest hrec el h2

/-- If a row of the assembler succeeds, every visited cell's type code was
found in the codec. -/
theorem rowTess_ok_cells (codec : Codec) (lat : ℚ) :
    ∀ (lns : List ℚ) (ts : List String) (zs : List ℚ) (res : List Tesseroid),
      rowTess codec lat lns ts zs = .ok res →
      ∀ j, j < lns.length → ∃ t, ts.get? j = some t ∧ (dictLookup codec t).isSome
  | [], ts, zs, res => by
    intro _ j hj
    simp at hj
  | lon :: lns, t :: ts, z :: zs, res => by
    intro h j hj
    simp only [rowTess] at h
    cases hc : cellTess codec t lon lat z with
    | error er => rw [hc] at h; exact absurd h (by simp)
    | ok elems =>
      rw [hc] at h
      cases hr : rowTess codec lat lns ts zs with
      | error er => rw [hr] at h; exact absurd h (by simp)
      | ok more =>
        match j with
        | 0 =>
          refine ⟨t, rfl, ?_⟩
          unfold cellTess at hc
          cases hl : dictLookup codec t with
          | none => rw [hl] at hc; exact absurd hc (by simp)
          | some st => simp
        | j + 1 =>
          exact rowTess_ok_cells codec lat lns ts zs more hr j (by simpa using hj)
  | lon :: lns, [], zs, res => by
    intro h
    simp [rowTess] at h
  | lon :: lns, t :: ts, [], res => by
    intro h
    simp [rowTess] at h

/-- If the grid loop succeeds, every visited row exists and its row loop
succeeded. -/
theorem gridTess_ok_rows (codec : Codec) (lons : List ℚ) :
    ∀ (lts : List ℚ) (trows : List (List String)) (prows : List (List ℚ)) (res : List Tesseroid),
      gridTess codec lons lts trows prows = .ok res →
      ∀ i, i < lts.length →
        ∃ trow prow lat w, trows.get? i = some trow ∧ prows.get? i = some prow ∧
          rowTess codec lat lons trow prow = .ok w
  | [], trows, prows, res => by
    intro _ i hi
    simp at hi
  | lat :: lts, trow :: trows, prow :: prows, res => by
    intro h i hi
    simp only [gridTess] at h
    cases hr : rowTess codec lat lons trow prow with
    | error er => rw [hr] at h; exact absurd h (by simp)
    | ok elems =>
      rw [hr] at h
      cases hg : gridTess codec lons lts trows prows with
      | error er => rw [hg] at h; exact absurd h (by simp)
      | ok more =>
        match i with
        | 0 => exact ⟨trow, prow, lat, elems, rfl, rfl, hr⟩
        | i + 1 =>
          exact gridTess_ok_rows codec lons lts trows prows more hg i (by simpa using hi)
  | lat :: lts, [], prows, res => by
    intro h
    simp [gridTess] at h
  | lat :: lts, trow :: trows, [], res => by
    intro h
    simp [gridTess] at h

/-! ## Claim theorems -/

/-- C1: for every grid cell (row `i`, column `j`) taken in row-major
order, the assembler starts with `top = topography[i][j]`, iterates the 7
layers shallowest to deepest, and for each layer of thickness `> 0` emits
exactly one element with `west = lons[j]`, `east = west + 2`,
`south = lats[i] - 2`, `north = lats[i]`, z-bounds
`[top, top - thickness[layer]]` and that layer's `{density, vp, vs}`, then
sets `top` to the emitted bottom; zero-thickness layers emit nothing and
leave the running top unchanged.  `c1Spec`, `c1Row`, `c1Cell`, `c1Go`
transcribe exactly this description, and `crust2ToTesseroids` is
`gridTess` at the fixed 2° axes. -/
theorem c1_assembler_refines (codec : Codec) (lons lats : List ℚ)
    (types : List (List String)) (topo : List (List ℚ))
    (h : gridOK codec lons lats types topo = true) :
    gridTess codec lons lats types topo = .ok (c1Spec codec lons lats types topo) :=
  gridTess_spec codec lons lats types topo h

/-- C1 witness: a concrete 1×2 grid over the example codec. -/
theorem c1_assembler_refines_witness :
    gridOK exCodec [-180, -178] [90] [["aa", "aa"]] [[100, -50]] = true ∧
    gridTess exCodec [-180, -178] [90] [["aa", "aa"]] [[100, -50]] =
      .ok (c1Spec exCodec [-180, -178] [90] [["aa", "aa"]] [[100, -50]]) :=
  ⟨by decide,
   c1_assembler_refines exCodec [-180, -178] [90] [["aa", "aa"]] [[100, -50]] (by decide)⟩

/-- C4: for a cell whose type code resolves to a 7-layer codec entry, the
sum of the emitted elements' vertical spans (`top - bottom`) equals the
sum of the entry's nonzero thickness values, and when at least one element
is emitted the first one's `top` is the cell's topography value. -/
theorem c4_span_balance (codec : Codec) (t : String) (st : LayerStack) (lon lat z : ℚ)
    (elems : List Tesseroid)
    (hst : dictLookup codec t = some st) (hlen : st.thickness.length = 7)
    (hok : cellTess codec t lon lat z = .ok elems) :
    (elems.map (fun el => el.top - el.bottom)).sum =
      (st.thickness.filter (fun x => x ≠ 0)).sum ∧
    ∀ el0, elems.head? = some el0 → el0.top = z := by
  unfold cellTess at hok
  simp only [hst] at hok
  obtain ⟨hsum, hhead⟩ :=
    cellGo_span st lon (lon + cellSize) (lat - cellSize) lat 7 0 z elems hok
  refine ⟨?_, hhead⟩
  rw [hsum]
  congr 1
  rw [List.drop_zero, ← hlen, List.take_length]

/-- C4 witness: a concrete cell over `exCodecC4`. -/
theorem c4_span_balance_witness :
    ∃ st elems, dictLookup exCodecC4 "bb" = some st ∧ st.thickness.length = 7 ∧
      cellTess exCodecC4 "bb" (-180) 90 250 = .ok elems ∧
      ((elems.map (fun el => el.top - el.bottom)).sum =
        (st.thickness.filter (fun x => x ≠ 0)).sum ∧
      ∀ el0, elems.head? = some el0 → el0.top = 250) :=
  ⟨_, _, rfl, by decide, rfl,
   c4_span_balance exCodecC4 "bb" _ (-180) 90 250 _ rfl (by decide) rfl⟩

/-- C6: when some cell inside the fixed 90×180 traversal has a type code
absent from the codec, the assembler terminates with a `LookupError`
(`KeyError` and `IndexError` both are) and returns no element list at
all. -/
theorem c6_missing_code (topogrd : List (List ℚ)) (types : List (List String)) (codec : Codec)
    (i j : Nat) (row : List String) (t : String)
    (hi : i < crust2Lats.length) (hj : j < crust2Lons.length)
    (hrow : types.get? i = some row) (ht : row.get? j = some t)
    (hmiss : dictLookup codec t = none) :
    ∃ er, crust2ToTesseroids topogrd types codec = .error er := by
  cases hres : crust2ToTesseroids topogrd types codec with
  | error er => exact ⟨er, rfl⟩
  | ok res =>
    exfalso
    obtain ⟨trow, prow, lat, w, htrow, hprow, hrt⟩ :=
      gridTess_ok_rows codec crust2Lons crust2Lats types topogrd res hres i hi
    rw [hrow] at htrow
    cases htrow
    obtain ⟨t', ht', hsome⟩ := rowTess_ok_cells codec lat crust2Lons row prow w hrt j hj
    rw [ht] at ht'
    cases ht'
    rw [hmiss] at hsome
    simp at hsome

/-- C6 witness: a 1×1 type-code matrix whose only code is absent from the
empty codec. -/
theorem c6_missing_code_witness :
    0 < crust2Lats.length ∧ 0 < crust2Lons.length ∧
    ∃ er, crust2ToTesseroids [[0]] [["aa"]] [] = .error er :=
  ⟨by decide, by decide,
   c6_missing_code [[0]] [["aa"]] [] 0 0 ["aa"] "aa" (by decide) (by decide) rfl rfl rfl⟩

/-- C2 counterexample: on a legend whose numeric lines have the documented
8 tokens, the built codec's `vp` sequence for code `A0` has length 8, not
7 — the source truncates only the thickness list. -/
theorem c2_codec_shape_counterexample :
    ∃ c st, crust2GetCodec c2Raw = some c ∧ dictLookup c "A0" = some st ∧
      st.vp.length ≠ 7 :=
  ⟨_, _, rfl, rfl, by decide⟩

/-- C2 amended: on legend input whose stripped non-blank lines form
5-line groups with 8 parseable tokens per numeric line and nonnegative
thickness tokens, the builder succeeds and every codec entry has `vp`,
`vs`, `density` of length 8, `thickness` of length exactly 7, and only
nonnegative thickness values. -/
theorem c2_codec_shape_amended (raw : List String)
    (h : goodLegend (crustPrep raw) = true) :
    ∃ c, crust2GetCodec raw = some c ∧ ∀ code st, dictLookup c code = some st →
      st.vp.length = 8 ∧ st.vs.length = 8 ∧ st.density.length = 8 ∧
      st.thickness.length = 7 ∧ ∀ x ∈ st.thickness, 0 ≤ x := by
  obtain ⟨c, hc⟩ := buildCodec_total (crustPrep raw) h []
  refine ⟨c, hc, ?_⟩
  intro code st hst
  rcases buildCodec_lookup_last code (crustPrep raw) [] c hc st hst with
    ⟨-, habs⟩ | ⟨lv, lsv, ld, lt, hlast, hd1, hd2, hd3, hd4⟩
  · simp [dictLookup] at habs
  · obtain ⟨g1, g2, g3, g4⟩ := goodLegend_lastGroup code (crustPrep raw) h lv lsv ld lt hlast
    obtain ⟨vp', hvp', hl1⟩ := goodNumLine_parseVals g1
    obtain ⟨vs', hvs', hl2⟩ := goodNumLine_parseVals g2
    obtain ⟨d', hdv', hl3⟩ := goodNumLine_parseVals g3
    obtain ⟨th', hth', hl4, hnn⟩ := goodThickLine_parseThick g4
    rw [hd1] at hvp'
    rw [hd2] at hvs'
    rw [hd3] at hdv'
    rw [hd4] at hth'
    cases hvp'
    cases hvs'
    cases hdv'
    cases hth'
    exact ⟨hl1, hl2, hl3, hl4, hnn⟩

/-- C2 amended witness: a concrete well-formed legend member. -/
theorem c2_codec_shape_amended_witness :
    goodLegend (crustPrep c2WitRaw) = true ∧
    ∃ c, crust2GetCodec c2WitRaw = some c ∧ ∀ code st, dictLookup c code = some st →
      st.vp.length = 8 ∧ st.vs.length = 8 ∧ st.density.length = 8 ∧
      st.thickness.length = 7 ∧ ∀ x ∈ st.thickness, 0 ≤ x :=
  ⟨by with_unfolding_all rfl, c2_codec_shape_amended c2WitRaw (by with_unfolding_all rfl)⟩

/-- C3: every codec entry decodes some complete legend group with each
value equal to the source value times 1000, the thickness list keeps only
the first 7 of the line's tokens (the 8th, the mantle value, is dropped),
and every assembled element's vertical span is drawn from those 7 retained
thicknesses. -/
theorem c3_unit_scaling (raw : List String) (c : Codec) (code : String) (st : LayerStack)
    (hb : crust2GetCodec raw = some c) (hl : dictLookup c code = some st) :
    ∃ lc lv lsv ld lt, GroupOf (crustPrep raw) lc lv lsv ld lt ∧ strTake lc 2 = code ∧
      (∃ src, mapOpt parseDec (splitWs lv) = some src ∧
        st.vp = src.map (fun q => q * 1000)) ∧
      (∃ src, mapOpt parseDec (splitWs lsv) = some src ∧
        st.vs = src.map (fun q => q * 1000)) ∧
      (∃ src, mapOpt parseDec (splitWs ld) = some src ∧
        st.density = src.map (fun q => q * 1000)) ∧
      (∃ src, mapOpt parseDec ((splitWs lt).take 7) = some src ∧
        st.thickness = src.map (fun q => q * 1000)) ∧
      ∀ lon lat z elems, cellTess c code lon lat z = .ok elems →
        ∀ el ∈ elems, (el.top - el.bottom) ∈ st.thickness := by
  rcases buildCodec_lookup_last code (crustPrep raw) [] c hb st hl with
    ⟨-, habs⟩ | ⟨lv, lsv, ld, lt, hlast, hd1, hd2, hd3, hd4⟩
  · simp [dictLookup] at habs
  · obtain ⟨lc, hg, hcode⟩ := lastGroupFor_groupOf code (crustPrep raw) lv lsv ld lt hlast
    refine ⟨lc, lv, lsv, ld, lt, hg, hcode,
      mapOpt_factor (f := parseDec) (g := fun q => q * 1000) hd1,
      mapOpt_factor (f := parseDec) (g := fun q => q * 1000) hd2,
      mapOpt_factor (f := parseDec) (g := fun q => q * 1000) hd3,
      mapOpt_factor (f := parseDec) (g := fun q => q * 1000) hd4, ?_⟩
    intro lon lat z elems hcell el hel
    unfold cellTess at hcell
    simp only [hl] at hcell
    exact cellGo_memThick st lon (lon + cellSize) (lat - cellSize) lat 7 0 z elems hcell el hel

/-- C3 witness: the concrete legend `c3Raw` (`6.5` decodes to `6500`, the
thickness `10` to `10000`). -/
theorem c3_unit_scaling_witness :
    ∃ c st, crust2GetCodec c3Raw = some c ∧ dictLookup c "D3" = some st ∧
      ∃ lc lv lsv ld lt, GroupOf (crustPrep c3Raw) lc lv lsv ld lt ∧ strTake lc 2 = "D3" ∧
        (∃ src, mapOpt parseDec (splitWs lv) = some src ∧
          st.vp = src.map (fun q => q * 1000)) ∧
        (∃ src, mapOpt parseDec (splitWs lsv) = some src ∧
          st.vs = src.map (fun q => q * 1000)) ∧
        (∃ src, mapOpt parseDec (splitWs ld) = some src ∧
          st.density = src.map (fun q => q * 1000)) ∧
        (∃ src, mapOpt parseDec ((splitWs lt).take 7) = some src ∧
          st.thickness = src.map (fun q => q * 1000)) ∧
        ∀ lon lat z elems, cellTess c "D3" lon lat z = .ok elems →
          ∀ el ∈ elems, (el.top - el.bottom) ∈ st.thickness :=
  ⟨_, _, rfl, rfl, c3_unit_scaling c3Raw _ "D3" _ rfl rfl⟩

/-- C5 counterexample: `c5Raw` has 6 non-blank lines after the header (not
a multiple of 5) and a thickness line of only 3 tokens, yet the builder
returns a codec — with a 3-entry thickness list — instead of failing. -/
theorem c5_parse_error_counterexample :
    ∃ c st, crust2GetCodec c5Raw = some c ∧ (crustPrep c5Raw).length % 5 = 1 ∧
      dictLookup c "E7" = some st ∧ st.thickness.length = 3 :=
  ⟨_, _, rfl, by decide, rfl, by decide⟩

/-- C5 amended: the builder never fails on these shape defects: it reads
exactly the first `5 * (n / 5)` prepared lines, silently ignoring a
trailing incomplete group, and numeric lines with fewer tokens than
expected merely yield shorter value lists. -/
theorem c5_parse_error_amended (raw : List String) :
    crust2GetCodec raw =
      buildCodec ((crustPrep raw).take (5 * ((crustPrep raw).length / 5))) [] :=
  buildCodec_take (crustPrep raw) []

/-- C10: the codec entry for a code always decodes the last complete
legend group carrying that code, so with duplicated codes the later group
silently overwrites the earlier one and no error is raised. -/
theorem c10_duplicate_last_wins (raw : List String) (c : Codec) (code : String)
    (lv lsv ld lt : String)
    (hb : crust2GetCodec raw = some c)
    (hg : lastGroupFor code (crustPrep raw) = some (lv, lsv, ld, lt)) :
    ∃ st, dictLookup c code = some st ∧ parseVals lv = some st.vp ∧
      parseVals lsv = some st.vs ∧ parseVals ld = some st.density ∧
      parseThick lt = some st.thickness := by
  have hsome : (dictLookup c code).isSome :=
    buildCodec_lookup_isSome code (crustPrep raw) [] c hb (Or.inl (by rw [hg]; rfl))
  obtain ⟨st, hst⟩ := Option.isSome_iff_exists.mp hsome
  rcases buildCodec_lookup_last code (crustPrep raw) [] c hb st hst with
    ⟨hnone, -⟩ | ⟨lv', lsv', ld', lt', hlast, h1, h2, h3, h4⟩
  · rw [hg] at hnone
    exact absurd hnone (by simp)
  · rw [hg] at hlast
    simp only [Option.some.injEq, Prod.mk.injEq] at hlast
    obtain ⟨e1, e2, e3, e4⟩ := hlast
    subst e1; subst e2; subst e3; subst e4
    exact ⟨st, hst, h1, h2, h3, h4⟩

/-- C10 witness: `c10Raw` holds two groups for code `F0`; the entry
decodes the second group's lines. -/
theorem c10_duplicate_last_wins_witness :
    lastGroupFor "F0" (crustPrep c10Raw) =
      some ("5 5 5 5 5 5 5 5", "6 6 6 6 6 6 6 6", "7 7 7 7 7 7 7 7", "8 8 8 8 8 8 8 8") ∧
    ∃ c, crust2GetCodec c10Raw = some c ∧
      ∃ st, dictLookup c "F0" = some st ∧
        parseVals "5 5 5 5 5 5 5 5" = some st.vp ∧
        parseVals "6 6 6 6 6 6 6 6" = some st.vs ∧
        parseVals "7 7 7 7 7 7 7 7" = some st.density ∧
        parseThick "8 8 8 8 8 8 8 8" = some st.thickness :=
  ⟨rfl, _, rfl, c10_duplicate_last_wins c10Raw _ "F0" _ _ _ _ rfl rfl⟩

/-- C7 counterexample: `c7CexLines` is a well-formed grid file (parseable
header, uniform body) declaring `ny = 1`, but its single-row body is
squeezed to 1-D by `numpy.genfromtxt`, so the two-name unpack of
`numpy.where` on source line 206 raises `ValueError` and `load_surfer`
fails instead of returning axes and the masked matrix. -/
theorem c7_load_surfer_counterexample :
    readHeader c7CexLines = some (3, 1, 0, 2, 0, 1) ∧
    (∃ raw, genfromtxtQ (c7CexLines.drop 5) = some raw ∧ genfromtxtIs2D raw = false) ∧
    (loadSurfer c7CexLines).1 = .error GrdErr.parse :=
  ⟨by with_unfolding_all rfl, ⟨_, rfl, by with_unfolding_all rfl⟩,
   by with_unfolding_all rfl⟩

/-- C7 amended: for a grid file with a parseable header (`nx`, `ny`
nonnegative) and a body that parses to a genuinely 2-D matrix (at least
two rows and two columns — otherwise the `numpy.where` unpack on source
line 206 raises), `load_surfer` returns the longitude axis
`linspace xmin xmax nx` of length `nx`, the latitude axis
`linspace ymin ymax ny` of length `ny`, both evenly spaced over their
ranges, and the body matrix in which every cell `≥ 1.70141e38` becomes
the missing-value marker and every other cell passes through
unchanged. -/
theorem c7_load_surfer_amended (lines : List String) (nx ny : Int) (xmin xmax ymin ymax : ℚ)
    (raw : List (List (Option ℚ)))
    (hh : readHeader lines = some (nx, ny, xmin, xmax, ymin, ymax))
    (hb : genfromtxtQ (lines.drop 5) = some raw)
    (h2d : genfromtxtIs2D raw = true)
    (hnx : 0 ≤ nx) (hny : 0 ≤ ny) :
    (loadSurfer lines).1 = .ok ⟨linspace xmin xmax nx.toNat, linspace ymin ymax ny.toNat,
      raw.map (fun r => r.map maskCell)⟩ ∧
    (linspace xmin xmax nx.toNat).length = nx.toNat ∧
    (linspace ymin ymax ny.toNat).length = ny.toNat ∧
    (2 ≤ nx.toNat → ∀ k, k < nx.toNat →
      (linspace xmin xmax nx.toNat).get? k =
        some (xmin + (xmax - xmin) * k / ((nx.toNat : ℚ) - 1))) ∧
    (2 ≤ ny.toNat → ∀ k, k < ny.toNat →
      (linspace ymin ymax ny.toNat).get? k =
        some (ymin + (ymax - ymin) * k / ((ny.toNat : ℚ) - 1))) ∧
    (∀ v : ℚ, (nodataSentinel ≤ v → maskCell (some v) = none) ∧
      (v < nodataSentinel → maskCell (some v) = some v)) := by
  refine ⟨?_, linspace_length _ _ _, linspace_length _ _ _,
    fun h2 k hk => linspace_get xmin xmax nx.toNat k h2 hk,
    fun h2 k hk => linspace_get ymin ymax ny.toNat k h2 hk, ?_⟩
  · unfold loadSurfer
    simp only [hh, hb]
    rw [if_pos h2d, if_neg (by omega)]
  · intro v
    constructor
    · intro hv
      show (if nodataSentinel ≤ v then none else some v) = none
      rw [if_pos hv]
    · intro hv
      show (if nodataSentinel ≤ v then none else some v) = some v
      rw [if_neg (not_le.mpr hv)]

/-- C7 amended witness: the concrete grid file `c7Lines` (2×3 body, one
sentinel cell). -/
theorem c7_load_surfer_amended_witness :
    ∃ raw, readHeader c7Lines = some (3, 2, 0, 2, 0, 1) ∧
      genfromtxtQ (c7Lines.drop 5) = some raw ∧ genfromtxtIs2D raw = true ∧
      (0 : Int) ≤ 3 ∧ (0 : Int) ≤ 2 ∧
      ((loadSurfer c7Lines).1 =
        .ok ⟨linspace 0 2 (3 : Int).toNat, linspace 0 1 (2 : Int).toNat,
          raw.map (fun r => r.map maskCell)⟩ ∧
      (linspace 0 2 (3 : Int).toNat).length = (3 : Int).toNat ∧
      (linspace 0 1 (2 : Int).toNat).length = (2 : Int).toNat ∧
      (2 ≤ (3 : Int).toNat → ∀ k, k < (3 : Int).toNat →
        (linspace 0 2 (3 : Int).toNat).get? k =
          some (0 + (2 - 0) * k / (((3 : Int).toNat : ℚ) - 1))) ∧
      (2 ≤ (2 : Int).toNat → ∀ k, k < (2 : Int).toNat →
        (linspace 0 1 (2 : Int).toNat).get? k =
          some (0 + (1 - 0) * k / (((2 : Int).toNat : ℚ) - 1))) ∧
      (∀ v : ℚ, (nodataSentinel ≤ v → maskCell (some v) = none) ∧
        (v < nodataSentinel → maskCell (some v) = some v))) :=
  ⟨_, by with_unfolding_all rfl, rfl, by with_unfolding_all rfl, by decide, by decide,
   c7_load_surfer_amended c7Lines 3 2 0 2 0 1 _ (by with_unfolding_all rfl) rfl
     (by with_unfolding_all rfl) (by decide) (by decide)⟩

/-- C8 counterexample: the header of `c8Lines` declares `ny = 3` but its
genuinely 2-D body parses to 2 rows; `load_surfer` returns the
mismatched 2-row matrix instead of failing. -/
theorem c8_shape_counterexample :
    readHeader c8Lines = some (3, 3, 0, 2, 0, 1) ∧
    ∃ g, (loadSurfer c8Lines).1 = .ok g ∧ g.grd.length = 2 :=
  ⟨by with_unfolding_all rfl, _, rfl, rfl⟩

/-- C8 amended: `load_surfer` fails when a header line cannot be split
into the expected token counts (here: line 2 without exactly two tokens),
and a non-2-D body fails at the `numpy.where` unpack; but for a 2-D body
the row/column shape is never validated against `ny`×`nx`: a 2-D body
whose shape differs from the declared one is returned as-is. -/
theorem c8_shape_amended (lines : List String)
    (h : (splitWs (lines.getD 1 "")).length ≠ 2) :
    (loadSurfer lines).1 = .error GrdErr.parse := by
  have hp : parse2 (lines.getD 1 "") = none := by
    unfold parse2
    rcases hsp : splitWs (lines.getD 1 "") with _ | ⟨a, _ | ⟨b, _ | ⟨c, rest⟩⟩⟩
    · rfl
    · rfl
    · rw [hsp] at h; simp at h
    · rfl
  unfold loadSurfer readHeader
  simp only [hp]

/-- C8 amended witness: a second header line with three tokens. -/
theorem c8_shape_amended_witness :
    (loadSurfer ["DSAA", "1 2 3"]).1 = .error GrdErr.parse :=
  c8_shape_amended ["DSAA", "1 2 3"] (by decide)

/-- C9 counterexample: on a header parse failure `load_surfer` exits
before ever reaching `ftext.close()`: the stream is left open on that
exit path, contradicting closure on every exit path. -/
theorem c9_stream_close_counterexample :
    (loadSurfer ["DSAA", "3"]).1 = .error GrdErr.parse ∧
    (loadSurfer ["DSAA", "3"]).2 = false :=
  ⟨rfl, rfl⟩

/-- C9 amended: `load_surfer` closes its header stream on every path that
survives the five header reads — success and body parse failure alike —
but a header parse failure exits with the stream still open (and
`crust2_to_tesseroids` never explicitly closes its archive at all). -/
theorem c9_stream_close_amended (lines : List String) (g : SurferGrid)
    (h : (loadSurfer lines).1 = .ok g) : (loadSurfer lines).2 = true := by
  cases hh : readHeader lines with
  | none =>
    rw [show loadSurfer lines = (.error .parse, false) by
      unfold loadSurfer; simp only [hh]] at h
    exact absurd h (by simp)
  | some tup =>
    obtain ⟨nx, ny, xmin, xmax, ymin, ymax⟩ := tup
    cases hb : genfromtxtQ (lines.drop 5) with
    | none =>
      unfold loadSurfer
      simp only [hh, hb]
    | some grd =>
      unfold loadSurfer
      simp only [hh, hb]
      by_cases h2d : genfromtxtIs2D grd = true
      · rw [if_pos h2d]
        by_cases hneg : nx < 0 ∨ ny < 0
        · rw [if_pos hneg]
        · rw [if_neg hneg]
      · rw [if_neg h2d]

/-- C9 amended witness: a successful load closes the stream. -/
theorem c9_stream_close_amended_witness :
    ∃ g, (loadSurfer ["DSAA", "2 2", "0 1", "0 1", "0 1", "1 2", "3 4"]).1 = .ok g ∧
      (loadSurfer ["DSAA", "2 2", "0 1", "0 1", "0 1", "1 2", "3 4"]).2 = true :=
  ⟨_, rfl, c9_stream_close_amended _ _ rfl⟩
